import Mathlib

/-!
# Verification of the WebSocket hub (package `websocket`)

Shallow embedding of the connection hub of the cba-prep backend:
the `Hub` struct (client registry, room index, broadcast channel), the
`Client` struct (identity, per-client `Rooms` set, bounded `Send` queue),
and the operations `registerClient`, `unregisterClient`, `joinRoom`,
`leaveRoom`, `broadcastMessage`, `SendToUser`, `sendPresenceUpdate`,
`GetOnlineUsers` and the read-pump dispatch (`handleMessage` and friends).

Go maps are modelled as association lists (`mlookup` / `minsert` /
`merase`); Go sets (`map[K]bool`) as duplicate-free lists with guarded
insertion and filter-based removal.  Channels: the per-client bounded
`Send` channel is a list bounded by `sendCap` (the code uses
`make(chan []byte, 256)`); the hub's `broadcast` channel is the `pending`
list, appended by producers and drained by `Run`, which hands each
message to `broadcastMessage`.  `json.Marshal` of a `Message` value
cannot fail (the struct is always serialisable), so delivery is modelled
as enqueuing the `Message` value itself — serialisation is injective on
this struct, so "the serialized envelope" and "the envelope" coincide.
`time.Now()` is modelled by the state field `now`.
-/

set_option autoImplicit false

namespace WsHub

/-- Lookup in an association list modelling a Go map (first match wins). -/
def mlookup {α β : Type} [DecidableEq α] : List (α × β) → α → Option β
  | [], _ => none
  | (k, v) :: t, a => if k = a then some v else mlookup t a

/-- Go map deletion `delete(m, k)`. -/
def merase {α β : Type} [DecidableEq α] : List (α × β) → α → List (α × β)
  | [], _ => []
  | (k', v) :: t, k => if k' = k then merase t k else (k', v) :: merase t k

/-- Go map assignment `m[k] = v`: any previous binding of `k` is replaced. -/
def minsert {α β : Type} [DecidableEq α] (l : List (α × β)) (k : α) (v : β) :
    List (α × β) :=
  (k, v) :: merase l k

/-- Go set insertion `m[x] = true` on a `map[K]bool` used as a set. -/
def sinsert {α : Type} [DecidableEq α] (l : List α) (a : α) : List α :=
  if a ∈ l then l else a :: l

/-- Go set removal `delete(m, x)` on a `map[K]bool` used as a set. -/
def serase {α : Type} [DecidableEq α] : List α → α → List α
  | [], _ => []
  | x :: t, a => if x = a then serase t a else x :: serase t a

/-- A `Client`'s immutable attributes.  `tag` models Go pointer identity:
two distinct `*Client` values may carry the same `id` string (the spec's
ID-reuse scenario), so the pointer, not the `ID` field, is the identity
used by room member sets (`map[*Client]bool`). -/
structure Client where
  tag : Nat
  id : String
  userID : String
  teamID : String
deriving DecidableEq, Repr

/-- The payload of a `Message` (Go `Data interface{}`): either absent,
the presence payload `{"status": s}`, or an opaque client payload. -/
inductive MsgData where
  | none
  | status (s : String)
  | payload (s : String)
deriving DecidableEq, Repr

/-- The wire envelope (Go struct `Message`).  `room = ""` is the Go zero
value and means "no room / broadcast to all" (`json:"room,omitempty"`). -/
structure Message where
  type : String
  room : String
  userID : String
  data : MsgData
  timestamp : Nat
deriving DecidableEq, Repr

/-- The hub's mutable state together with the per-client mutable state
(`Rooms` set, `Send` queue) owned by each client but mutated via the hub.
`pending` is the buffered `h.broadcast` channel, `closedChans` the set of
clients whose `Send` channel has been closed, `droppedLog` the warnings
logged when an enqueue found a full `Send` channel. -/
structure HubState where
  clients : List (String × Client)
  rooms : List (String × List Client)
  clientRooms : List (Client × List String)
  queues : List (Client × List Message)
  sendCap : Nat
  closedChans : List Client
  pending : List Message
  droppedLog : List (Client × Message)
  now : Nat
deriving DecidableEq, Repr

/-- `client.Rooms` viewed through the state (absent entry = empty map). -/
def croomsOf (s : HubState) (c : Client) : List String :=
  (mlookup s.clientRooms c).getD []

/-- The contents of `client.Send` viewed through the state. -/
def queueOf (s : HubState) (c : Client) : List Message :=
  (mlookup s.queues c).getD []

/-- The member set of room `r` viewed through the state (absent room =
no members, as in the Go `h.rooms[room]` nil-map read). -/
def membersOf (s : HubState) (r : String) : List Client :=
  (mlookup s.rooms r).getD []

/-- `h.joinRoom(client, room)`: create the room's member set if absent,
add the client to it, and record the room in `client.Rooms`. -/
def joinRoom (s : HubState) (c : Client) (room : String) : HubState :=
  let ms := (mlookup s.rooms room).getD []
  { s with rooms := minsert s.rooms room (sinsert ms c),
           clientRooms := minsert s.clientRooms c (sinsert (croomsOf s c) room) }

/-- `h.leaveRoom(client, room)`: remove the client from the room's member
set (deleting the room when it becomes empty), then delete the room from
`client.Rooms`. -/
def leaveRoom (s : HubState) (c : Client) (room : String) : HubState :=
  let rooms' :=
    match mlookup s.rooms room with
    | Option.none => s.rooms
    | some ms =>
      let ms' := serase ms c
      if ms' = [] then merase s.rooms room else minsert s.rooms room ms'
  { s with rooms := rooms',
           clientRooms := minsert s.clientRooms c (serase (croomsOf s c) room) }

/-- `h.sendPresenceUpdate(client, online)`: synthesize a `presence`
envelope carrying `{status: online|offline}` and the client's user ID,
target it at the team room when the client has one (otherwise the room
stays the zero value `""`), and push it onto `h.broadcast`. -/
def sendPresenceUpdate (s : HubState) (c : Client) (online : Bool) : HubState :=
  let status := if online then "online" else "offline"
  let msg : Message :=
    { type := "presence",
      room := if c.teamID ≠ "" then "team:" ++ c.teamID else "",
      userID := c.userID,
      data := MsgData.status status,
      timestamp := s.now }
  { s with pending := s.pending ++ [msg] }

/-- `h.registerClient(client)`: insert into the registry (overwriting any
entry with the same ID), join `"global"` and, when the team ID is
non-empty, `"team:<teamID>"`, then emit the presence "online" update. -/
def registerClient (s : HubState) (c : Client) : HubState :=
  let s1 := { s with clients := minsert s.clients c.id c }
  let s2 := joinRoom s1 c "global"
  let s3 := if c.teamID ≠ "" then joinRoom s2 c ("team:" ++ c.teamID) else s2
  sendPresenceUpdate s3 c true

/-- `h.unregisterClient(client)`: a no-op unless the registry holds an
entry for `client.ID`; otherwise delete that entry, close the client's
`Send` channel, leave every room in `client.Rooms` (the Go `range` loop
sees exactly the keys present at entry, since each iteration deletes only
the key it visits), and emit the presence "offline" update. -/
def unregisterClient (s : HubState) (c : Client) : HubState :=
  match mlookup s.clients c.id with
  | Option.none => s
  | some _ =>
    let s1 := { s with clients := merase s.clients c.id,
                       closedChans := sinsert s.closedChans c }
    let s2 := (croomsOf s1 c).foldl (fun st r => leaveRoom st c r) s1
    sendPresenceUpdate s2 c false

/-- The non-blocking send `select { case client.Send <- data: default: }`:
enqueue when the bounded channel has room, otherwise drop the message and
log a warning.  A send on a closed channel cannot occur in the modelled
flows (unregistration removes the client from registry and rooms in the
same critical section that closes the channel), and is modelled as the
drop branch. -/
def trySend (s : HubState) (c : Client) (m : Message) : HubState :=
  if c ∈ s.closedChans then
    { s with droppedLog := s.droppedLog ++ [(c, m)] }
  else if (queueOf s c).length < s.sendCap then
    { s with queues := minsert s.queues c (queueOf s c ++ [m]) }
  else
    { s with droppedLog := s.droppedLog ++ [(c, m)] }

/-- `h.broadcastMessage(message)`: serialize (total on this struct), then
deliver non-blockingly to each member of `message.Room` when that field is
set — to nobody when the room has no entry in the index — and to every
registered client when it is unset. -/
def broadcastMessage (s : HubState) (m : Message) : HubState :=
  if m.room ≠ "" then
    match mlookup s.rooms m.room with
    | some ms => ms.foldl (fun st c => trySend st c m) s
    | Option.none => s
  else
    (s.clients.map Prod.snd).foldl (fun st c => trySend st c m) s

/-- `h.SendToUser(userID, message)`: deliver non-blockingly to every
registered client whose user ID matches, regardless of rooms. -/
def SendToUser (s : HubState) (userID : String) (m : Message) : HubState :=
  (s.clients.map Prod.snd).foldl
    (fun st c => if c.userID = userID then trySend st c m else st) s

/-- `h.GetOnlineUsers(teamID)`: the distinct user IDs of the members of
`"team:<teamID>"`. -/
def GetOnlineUsers (s : HubState) (teamID : String) : List String :=
  ((mlookup s.rooms ("team:" ++ teamID)).getD []).map Client.userID |>.dedup

/-- `c.handleChatMessage(msg)`: default an unset room to the sender's
team room, then push onto `h.broadcast`. -/
def handleChatMessage (s : HubState) (c : Client) (m : Message) : HubState :=
  let m' := if m.room = "" then { m with room := "team:" ++ c.teamID } else m
  { s with pending := s.pending ++ [m'] }

/-- `c.handleTaskUpdate(msg)`: overwrite the room with the sender's team
room unconditionally, then push onto `h.broadcast`. -/
def handleTaskUpdate (s : HubState) (c : Client) (m : Message) : HubState :=
  { s with pending := s.pending ++ [{ m with room := "team:" ++ c.teamID }] }

/-- `c.handleTypingIndicator(msg)`: overwrite the room with the sender's
team room unconditionally, then push onto `h.broadcast`. -/
def handleTypingIndicator (s : HubState) (c : Client) (m : Message) : HubState :=
  { s with pending := s.pending ++ [{ m with room := "team:" ++ c.teamID }] }

/-- `c.handleMessage(msg)`: dispatch on the envelope type; unknown types
are logged and discarded. -/
def handleMessage (s : HubState) (c : Client) (m : Message) : HubState :=
  if m.type = "chat" then handleChatMessage s c m
  else if m.type = "task_update" then handleTaskUpdate s c m
  else if m.type = "typing" then handleTypingIndicator s c m
  else s

/-- One successfully-deserialized inbound frame in `ReadPump`: the hub
overwrites `msg.UserID` with the connection's authenticated user ID and
`msg.Timestamp` with the current server time before dispatching. -/
def readPumpStep (s : HubState) (c : Client) (frame : Message) : HubState :=
  handleMessage s c { frame with userID := c.userID, timestamp := s.now }

/-- `NewHub`: a fresh hub with empty registry, room index and channels.
The per-client `Send` capacity (`make(chan []byte, 256)` at connection
time) is carried by `cap`. -/
def NewHub (cap : Nat) : HubState :=
  { clients := [], rooms := [], clientRooms := [], queues := [], sendCap := cap,
    closedChans := [], pending := [], droppedLog := [], now := 0 }

/-- Full bidirectional membership agreement, over all clients and rooms:
the inductive strengthening of the spec's invariant (quantified over
lookups, so it is a statement about the maps, not about single entries). -/
def Agree (s : HubState) : Prop :=
  ∀ r c, c ∈ membersOf s r ↔ r ∈ croomsOf s c

/-- Decidable (finitely quantified) form of `Agree`: every member listed
in the room index lists that room in its `Rooms` set, and every room
listed in a client's `Rooms` set lists that client as a member. -/
def fullInvariant (s : HubState) : Prop :=
  (∀ r ∈ s.rooms.map Prod.fst, ∀ c ∈ membersOf s r, r ∈ croomsOf s c)
  ∧ (∀ c ∈ s.clientRooms.map Prod.fst, ∀ r ∈ croomsOf s c, c ∈ membersOf s r)

/-- The spec's invariant, verbatim: for every registered client `c` and
every room `r` of the hub's room index,
`c ∈ room.members ⇔ room ∈ client.rooms`. -/
def roomInvariant (s : HubState) : Prop :=
  ∀ p ∈ s.clients, ∀ r ∈ s.rooms.map Prod.fst,
    (p.2 ∈ membersOf s r ↔ r ∈ croomsOf s p.2)

instance (s : HubState) : Decidable (fullInvariant s) := by
  unfold fullInvariant; exact inferInstance

instance (s : HubState) : Decidable (roomInvariant s) := by
  unfold roomInvariant; exact inferInstance

/-- Sample client for concrete evaluations: team `"T1"`. -/
def cAlice : Client := ⟨0, "ca", "alice", "T1"⟩

/-- Sample client for concrete evaluations: same team `"T1"`. -/
def cBob : Client := ⟨1, "cb", "bob", "T1"⟩

/-- Sample client for concrete evaluations: team `"T2"`. -/
def cCarol : Client := ⟨2, "cc", "carol", "T2"⟩

/-- Sample client for concrete evaluations: anonymous (empty team ID). -/
def cAnon : Client := ⟨3, "cd", "anon", ""⟩

/-- Sample hub state: `cAlice` and `cBob` registered into `"global"` and
`"team:T1"`, empty queues, `Send` capacity 2. -/
def sampleState : HubState :=
  { clients := [("ca", cAlice), ("cb", cBob)],
    rooms := [("global", [cAlice, cBob]), ("team:T1", [cAlice, cBob])],
    clientRooms := [(cAlice, ["global", "team:T1"]), (cBob, ["global", "team:T1"])],
    queues := [],
    sendCap := 2,
    closedChans := [],
    pending := [],
    droppedLog := [],
    now := 0 }

/-- Sample chat envelope targeted at `"team:T1"`. -/
def mChat : Message :=
  { type := "chat", room := "team:T1", userID := "alice",
    data := MsgData.payload "hi", timestamp := 5 }

/-- Sample `task_update` envelope in which the client specified a room. -/
def mTask : Message :=
  { type := "task_update", room := "channel:9", userID := "alice",
    data := MsgData.payload "t", timestamp := 0 }

/-- Sample inbound frame with client-supplied (spoofed) identity fields. -/
def mSpoof : Message :=
  { type := "chat", room := "", userID := "evil",
    data := MsgData.payload "x", timestamp := 99 }

/-- The presence envelope a teamless client's registration synthesizes. -/
def mPresAnon : Message :=
  { type := "presence", room := "", userID := "anon",
    data := MsgData.status "online", timestamp := 0 }

/-- `sampleState` with `cAlice`'s `Send` queue saturated (2 of 2 slots). -/
def fullQueueState : HubState :=
  { sampleState with queues := [(cAlice, [mChat, mChat])] }

/-- `sampleState` with the teamless `cAnon` additionally registered. -/
def anonState : HubState :=
  { sampleState with clients := sampleState.clients ++ [("cd", cAnon)] }

/-! ## Association-list and set lemmas -/

theorem mlookup_merase_self {α β : Type} [DecidableEq α] (l : List (α × β)) (k : α) :
    mlookup (merase l k) k = Option.none := by
  induction l with
  | nil => rfl
  | cons p t ih =>
    obtain ⟨k', v⟩ := p
    by_cases h : k' = k
    · simpa [merase, h] using ih
    · simpa [merase, mlookup, h] using ih

theorem mlookup_merase_ne {α β : Type} [DecidableEq α] (l : List (α × β)) (k a : α)
    (h : a ≠ k) : mlookup (merase l k) a = mlookup l a := by
  induction l with
  | nil => rfl
  | cons p t ih =>
    obtain ⟨k', v⟩ := p
    simp only [merase]
    by_cases hk : k' = k
    · have hka : k' ≠ a := fun e => h (e.symm.trans hk)
      rw [if_pos hk, ih]
      simp [mlookup, hka]
    · rw [if_neg hk]
      by_cases ha : k' = a
      · simp [mlookup, ha]
      · simp [mlookup, ha, ih]

theorem mlookup_minsert {α β : Type} [DecidableEq α] (l : List (α × β)) (k a : α)
    (v : β) : mlookup (minsert l k v) a = if k = a then some v else mlookup l a := by
  by_cases h : k = a
  · simp [minsert, mlookup, h]
  · have h' : a ≠ k := fun e => h e.symm
    simp [minsert, mlookup, h, mlookup_merase_ne l k a h']

theorem mlookup_eq_none_of_not_mem_keys {α β : Type} [DecidableEq α]
    (l : List (α × β)) (a : α) (h : a ∉ l.map Prod.fst) :
    mlookup l a = Option.none := by
  induction l with
  | nil => rfl
  | cons p t ih =>
    obtain ⟨k', v⟩ := p
    simp only [List.map_cons, List.mem_cons] at h
    push_neg at h
    have hka : k' ≠ a := fun e => h.1 e.symm
    simp [mlookup, hka, ih h.2]

theorem mem_sinsert {α : Type} [DecidableEq α] (l : List α) (a x : α) :
    x ∈ sinsert l a ↔ x = a ∨ x ∈ l := by
  unfold sinsert
  split
  · constructor
    · exact fun h => Or.inr h
    · rintro (rfl | h) <;> assumption
  · simp [List.mem_cons]

theorem mem_serase {α : Type} [DecidableEq α] (l : List α) (a x : α) :
    x ∈ serase l a ↔ x ∈ l ∧ x ≠ a := by
  induction l with
  | nil => simp [serase]
  | cons y t ih =>
    simp only [serase]
    by_cases h : y = a
    · rw [if_pos h, ih]
      subst h
      constructor
      · rintro ⟨hx, hne⟩; exact ⟨List.mem_cons_of_mem _ hx, hne⟩
      · rintro ⟨hm, hne⟩
        rcases List.mem_cons.mp hm with rfl | hx
        · exact absurd rfl hne
        · exact ⟨hx, hne⟩
    · rw [if_neg h]
      simp only [List.mem_cons, ih]
      constructor
      · rintro (rfl | ⟨hx, hne⟩)
        · exact ⟨Or.inl rfl, h⟩
        · exact ⟨Or.inr hx, hne⟩
      · rintro ⟨rfl | hx, hne⟩
        · exact Or.inl rfl
        · exact Or.inr ⟨hx, hne⟩

/-! ## Characterization of `joinRoom` and `leaveRoom` -/

theorem joinRoom_membersOf (s : HubState) (c : Client) (r r' : String) :
    membersOf (joinRoom s c r) r' =
      if r = r' then sinsert (membersOf s r) c else membersOf s r' := by
  simp only [joinRoom, membersOf, mlookup_minsert]
  split <;> rfl

theorem joinRoom_croomsOf (s : HubState) (c c' : Client) (r : String) :
    croomsOf (joinRoom s c r) c' =
      if c = c' then sinsert (croomsOf s c) r else croomsOf s c' := by
  simp only [joinRoom, croomsOf, membersOf, mlookup_minsert]
  split <;> rfl

theorem leaveRoom_membersOf (s : HubState) (c : Client) (r r' : String) :
    membersOf (leaveRoom s c r) r' =
      if r = r' then serase (membersOf s r) c else membersOf s r' := by
  unfold leaveRoom membersOf
  cases hm : mlookup s.rooms r with
  | none =>
    simp only [hm]
    by_cases h : r = r'
    · subst h; simp [hm, serase]
    · rw [if_neg h]
  | some ms =>
    simp only [hm, Option.getD_some]
    by_cases hse : serase ms c = []
    · rw [if_pos hse]
      by_cases h : r = r'
      · subst h
        simp [mlookup_merase_self, hm, hse]
      · simp [mlookup_merase_ne _ _ _ (fun e => h e.symm), h]
    · rw [if_neg hse]
      by_cases h : r = r'
      · subst h; simp [mlookup_minsert, hm]
      · simp [mlookup_minsert, h]

theorem leaveRoom_croomsOf (s : HubState) (c c' : Client) (r : String) :
    croomsOf (leaveRoom s c r) c' =
      if c = c' then serase (croomsOf s c) r else croomsOf s c' := by
  simp only [leaveRoom, croomsOf, mlookup_minsert]
  split <;> rfl

/-! ## Frame lemmas: which state fields each operation leaves alone -/

theorem joinRoom_frame (s : HubState) (c : Client) (r : String) :
    (joinRoom s c r).clients = s.clients ∧ (joinRoom s c r).queues = s.queues
    ∧ (joinRoom s c r).sendCap = s.sendCap
    ∧ (joinRoom s c r).closedChans = s.closedChans
    ∧ (joinRoom s c r).pending = s.pending
    ∧ (joinRoom s c r).droppedLog = s.droppedLog
    ∧ (joinRoom s c r).now = s.now :=
  ⟨rfl, rfl, rfl, rfl, rfl, rfl, rfl⟩

theorem leaveRoom_frame (s : HubState) (c : Client) (r : String) :
    (leaveRoom s c r).clients = s.clients ∧ (leaveRoom s c r).queues = s.queues
    ∧ (leaveRoom s c r).sendCap = s.sendCap
    ∧ (leaveRoom s c r).closedChans = s.closedChans
    ∧ (leaveRoom s c r).pending = s.pending
    ∧ (leaveRoom s c r).droppedLog = s.droppedLog
    ∧ (leaveRoom s c r).now = s.now :=
  ⟨rfl, rfl, rfl, rfl, rfl, rfl, rfl⟩

theorem sendPresenceUpdate_state (s : HubState) (c : Client) (online : Bool) :
    sendPresenceUpdate s c online =
      { s with pending := s.pending ++
          [{ type := "presence",
             room := if c.teamID ≠ "" then "team:" ++ c.teamID else "",
             userID := c.userID,
             data := MsgData.status (if online then "online" else "offline"),
             timestamp := s.now }] } := rfl

theorem trySend_frame (s : HubState) (c : Client) (m : Message) :
    (trySend s c m).clients = s.clients ∧ (trySend s c m).rooms = s.rooms
    ∧ (trySend s c m).clientRooms = s.clientRooms
    ∧ (trySend s c m).sendCap = s.sendCap
    ∧ (trySend s c m).closedChans = s.closedChans
    ∧ (trySend s c m).pending = s.pending
    ∧ (trySend s c m).now = s.now := by
  unfold trySend
  split
  · exact ⟨rfl, rfl, rfl, rfl, rfl, rfl, rfl⟩
  · split
    · exact ⟨rfl, rfl, rfl, rfl, rfl, rfl, rfl⟩
    · exact ⟨rfl, rfl, rfl, rfl, rfl, rfl, rfl⟩

/-! ## Preservation of bidirectional membership agreement -/

theorem agree_pending_update (s : HubState) (p : List Message) (h : Agree s) :
    Agree { s with pending := p } := h

theorem agree_joinRoom (s : HubState) (c : Client) (r : String) (h : Agree s) :
    Agree (joinRoom s c r) := by
  intro r' c'
  rw [joinRoom_membersOf, joinRoom_croomsOf]
  by_cases hr : r = r'
  · subst hr
    by_cases hc : c = c'
    · subst hc
      simp [mem_sinsert]
    · rw [if_pos rfl, if_neg hc, mem_sinsert]
      constructor
      · rintro (rfl | hm)
        · exact absurd rfl hc
        · exact (h r c').mp hm
      · intro hr'
        exact Or.inr ((h r c').mpr hr')
  · rw [if_neg hr]
    by_cases hc : c = c'
    · subst hc
      rw [if_pos rfl, mem_sinsert]
      constructor
      · intro hm
        exact Or.inr ((h r' c).mp hm)
      · rintro (rfl | hr'')
        · exact absurd rfl hr
        · exact (h r' c).mpr hr''
    · rw [if_neg hc]
      exact h r' c'

theorem agree_leaveRoom (s : HubState) (c : Client) (r : String) (h : Agree s) :
    Agree (leaveRoom s c r) := by
  intro r' c'
  rw [leaveRoom_membersOf, leaveRoom_croomsOf]
  by_cases hr : r = r'
  · subst hr
    by_cases hc : c = c'
    · subst hc
      simp [mem_serase]
    · rw [if_pos rfl, if_neg hc, mem_serase]
      constructor
      · rintro ⟨hm, _⟩
        exact (h r c').mp hm
      · intro hr'
        exact ⟨(h r c').mpr hr', fun e => hc e.symm⟩
  · rw [if_neg hr]
    by_cases hc : c = c'
    · subst hc
      rw [if_pos rfl, mem_serase]
      constructor
      · intro hm
        exact ⟨(h r' c).mp hm, fun e => hr e.symm⟩
      · rintro ⟨hr'', _⟩
        exact (h r' c).mpr hr''
    · rw [if_neg hc]
      exact h r' c'

theorem agree_foldl_leaveRoom (c : Client) :
    ∀ (L : List String) (s : HubState), Agree s →
      Agree (L.foldl (fun st r => leaveRoom st c r) s)
  | [], _, h => h
  | r :: t, s, h => agree_foldl_leaveRoom c t _ (agree_leaveRoom s c r h)

theorem agree_registerClient (s : HubState) (c : Client) (h : Agree s) :
    Agree (registerClient s c) := by
  unfold registerClient
  dsimp only
  have h1 : Agree { s with clients := minsert s.clients c.id c } := h
  have h2 := agree_joinRoom _ c "global" h1
  by_cases ht : c.teamID ≠ ""
  · rw [if_pos ht, sendPresenceUpdate_state]
    exact agree_pending_update _ _ (agree_joinRoom _ c _ h2)
  · rw [if_neg ht, sendPresenceUpdate_state]
    exact agree_pending_update _ _ h2

theorem agree_unregisterClient (s : HubState) (c : Client) (h : Agree s) :
    Agree (unregisterClient s c) := by
  unfold unregisterClient
  dsimp only
  cases hm : mlookup s.clients c.id with
  | none => exact h
  | some c0 =>
    have h1 : Agree { s with clients := merase s.clients c.id,
                             closedChans := sinsert s.closedChans c } := h
    have h2 := agree_foldl_leaveRoom c
      (croomsOf { s with clients := merase s.clients c.id,
                         closedChans := sinsert s.closedChans c } c) _ h1
    rw [sendPresenceUpdate_state]
    exact agree_pending_update _ _ h2

theorem fullInvariant_iff_agree (s : HubState) : fullInvariant s ↔ Agree s := by
  constructor
  · rintro ⟨h1, h2⟩ r c
    constructor
    · intro hm
      by_cases hr : r ∈ s.rooms.map Prod.fst
      · exact h1 r hr c hm
      · rw [membersOf, mlookup_eq_none_of_not_mem_keys _ _ hr] at hm
        simp at hm
    · intro hc
      by_cases hck : c ∈ s.clientRooms.map Prod.fst
      · exact h2 c hck r hc
      · rw [croomsOf, mlookup_eq_none_of_not_mem_keys _ _ hck] at hc
        simp at hc
  · intro h
    exact ⟨fun r _ c hm => (h r c).mp hm, fun c _ r hc => (h r c).mpr hc⟩

theorem roomInvariant_of_agree (s : HubState) (h : Agree s) : roomInvariant s :=
  fun p _ r _ => h r p.2

/-! ## Delivery: `trySend` and its folds -/

theorem trySend_queueOf (s : HubState) (c c' : Client) (m : Message) :
    queueOf (trySend s c m) c' =
      if c = c' ∧ c ∉ s.closedChans ∧ (queueOf s c).length < s.sendCap
      then queueOf s c ++ [m] else queueOf s c' := by
  unfold trySend queueOf
  by_cases hcl : c ∈ s.closedChans
  · rw [if_pos hcl]
    simp [hcl]
  · rw [if_neg hcl]
    by_cases hlen : ((mlookup s.queues c).getD []).length < s.sendCap
    · rw [if_pos hlen]
      by_cases hc : c = c'
      · subst hc
        simp [mlookup_minsert, hcl, hlen]
      · simp [mlookup_minsert, hc, hcl, hlen]
    · rw [if_neg hlen]
      simp [hcl, hlen]

theorem trySend_droppedLog (s : HubState) (c : Client) (m : Message) :
    (trySend s c m).droppedLog =
      if c ∉ s.closedChans ∧ (queueOf s c).length < s.sendCap
      then s.droppedLog else s.droppedLog ++ [(c, m)] := by
  unfold trySend
  by_cases hcl : c ∈ s.closedChans
  · simp [hcl]
  · by_cases hlen : (queueOf s c).length < s.sendCap
    · simp [hcl, hlen]
    · simp [hcl, hlen]

theorem foldl_trySend_frame (m : Message) (l : List Client) : ∀ (s : HubState),
    (l.foldl (fun st x => trySend st x m) s).clients = s.clients
    ∧ (l.foldl (fun st x => trySend st x m) s).rooms = s.rooms
    ∧ (l.foldl (fun st x => trySend st x m) s).clientRooms = s.clientRooms
    ∧ (l.foldl (fun st x => trySend st x m) s).sendCap = s.sendCap
    ∧ (l.foldl (fun st x => trySend st x m) s).closedChans = s.closedChans
    ∧ (l.foldl (fun st x => trySend st x m) s).pending = s.pending
    ∧ (l.foldl (fun st x => trySend st x m) s).now = s.now := by
  induction l with
  | nil => exact fun s => ⟨rfl, rfl, rfl, rfl, rfl, rfl, rfl⟩
  | cons x t ih =>
    intro s
    simp only [List.foldl_cons]
    obtain ⟨a1, a2, a3, a4, a5, a6, a7⟩ := ih (trySend s x m)
    obtain ⟨b1, b2, b3, b4, b5, b6, b7⟩ := trySend_frame s x m
    exact ⟨a1.trans b1, a2.trans b2, a3.trans b3, a4.trans b4, a5.trans b5,
      a6.trans b6, a7.trans b7⟩

theorem foldl_trySend_queueOf (m : Message) (l : List Client) :
    ∀ (s : HubState) (c : Client), l.Nodup →
      queueOf (l.foldl (fun st x => trySend st x m) s) c =
        if c ∈ l ∧ c ∉ s.closedChans ∧ (queueOf s c).length < s.sendCap
        then queueOf s c ++ [m] else queueOf s c := by
  induction l with
  | nil =>
    intro s c _
    simp
  | cons x t ih =>
    intro s c hnd
    obtain ⟨hxt, hnd'⟩ := List.nodup_cons.mp hnd
    simp only [List.foldl_cons]
    rw [ih (trySend s x m) c hnd']
    obtain ⟨_, _, _, hcap, hcl, _, _⟩ := trySend_frame s x m
    rw [hcap, hcl]
    by_cases hc : x = c
    · subst hc
      by_cases h1 : x ∈ s.closedChans
      · simp [trySend_queueOf, hxt, h1]
      · by_cases h2 : (queueOf s x).length < s.sendCap
        · simp [trySend_queueOf, hxt, h1, h2]
        · simp [trySend_queueOf, hxt, h1, h2]
    · have hc' : ¬ c = x := fun e => hc e.symm
      have hq : queueOf (trySend s x m) c = queueOf s c := by
        rw [trySend_queueOf]
        simp [hc]
      rw [hq]
      simp only [List.mem_cons]
      by_cases hct : c ∈ t
      · simp [hct, hc']
      · simp [hct, hc']

theorem mem_droppedLog_trySend (s : HubState) (c : Client) (m : Message)
    (x : Client × Message) (hx : x ∈ s.droppedLog) :
    x ∈ (trySend s c m).droppedLog := by
  rw [trySend_droppedLog]
  split
  · exact hx
  · exact List.mem_append_left _ hx

theorem foldl_trySend_droppedLog_mono (m : Message) (l : List Client) :
    ∀ (s : HubState) (x : Client × Message), x ∈ s.droppedLog →
      x ∈ (l.foldl (fun st y => trySend st y m) s).droppedLog := by
  induction l with
  | nil => exact fun _ _ hx => hx
  | cons y t ih =>
    intro s x hx
    simp only [List.foldl_cons]
    exact ih _ x (mem_droppedLog_trySend s y m x hx)

theorem foldl_trySend_dropped (m : Message) (l : List Client) :
    ∀ (s : HubState) (a : Client), a ∈ l →
      (a ∈ s.closedChans ∨ s.sendCap ≤ (queueOf s a).length) →
      (a, m) ∈ (l.foldl (fun st y => trySend st y m) s).droppedLog := by
  induction l with
  | nil =>
    intro _ _ h
    exact absurd h (List.not_mem_nil _)
  | cons x t ih =>
    intro s a ha hcond
    simp only [List.foldl_cons]
    rcases List.mem_cons.mp ha with rfl | hat
    · have hd : (a, m) ∈ (trySend s a m).droppedLog := by
        rw [trySend_droppedLog]
        have : ¬ (a ∉ s.closedChans ∧ (queueOf s a).length < s.sendCap) := by
          rcases hcond with hc | hf
          · exact fun hp => hp.1 hc
          · exact fun hp => absurd hp.2 (Nat.not_lt.mpr hf)
        rw [if_neg this]
        exact List.mem_append_right _ (List.mem_singleton.mpr rfl)
      exact foldl_trySend_droppedLog_mono m t _ _ hd
    · obtain ⟨_, _, _, hcap, hcl, _, _⟩ := trySend_frame s x m
      have hq : queueOf (trySend s x m) a = queueOf s a := by
        rw [trySend_queueOf]
        by_cases hxa : x = a
        · subst hxa
          rcases hcond with hc | hf
          · simp [hc]
          · simp [Nat.not_lt.mpr hf]
        · simp [hxa]
      apply ih _ a hat
      rw [hcl, hcap, hq]
      exact hcond

/-! ## Folds of `leaveRoom` (unregistration cleanup) -/

theorem foldl_leaveRoom_frame (c : Client) (L : List String) : ∀ (s : HubState),
    (L.foldl (fun st r => leaveRoom st c r) s).clients = s.clients
    ∧ (L.foldl (fun st r => leaveRoom st c r) s).queues = s.queues
    ∧ (L.foldl (fun st r => leaveRoom st c r) s).sendCap = s.sendCap
    ∧ (L.foldl (fun st r => leaveRoom st c r) s).closedChans = s.closedChans
    ∧ (L.foldl (fun st r => leaveRoom st c r) s).pending = s.pending
    ∧ (L.foldl (fun st r => leaveRoom st c r) s).droppedLog = s.droppedLog
    ∧ (L.foldl (fun st r => leaveRoom st c r) s).now = s.now := by
  induction L with
  | nil => exact fun s => ⟨rfl, rfl, rfl, rfl, rfl, rfl, rfl⟩
  | cons r t ih =>
    intro s
    simp only [List.foldl_cons]
    obtain ⟨a1, a2, a3, a4, a5, a6, a7⟩ := ih (leaveRoom s c r)
    obtain ⟨b1, b2, b3, b4, b5, b6, b7⟩ := leaveRoom_frame s c r
    exact ⟨a1.trans b1, a2.trans b2, a3.trans b3, a4.trans b4, a5.trans b5,
      a6.trans b6, a7.trans b7⟩

theorem foldl_leaveRoom_mem (c : Client) (L : List String) :
    ∀ (s : HubState) (r : String),
      c ∈ membersOf (L.foldl (fun st x => leaveRoom st c x) s) r →
      c ∈ membersOf s r ∧ r ∉ L := by
  induction L with
  | nil =>
    intro s r h
    exact ⟨h, List.not_mem_nil r⟩
  | cons a t ih =>
    intro s r h
    simp only [List.foldl_cons] at h
    obtain ⟨h1, h2⟩ := ih (leaveRoom s c a) r h
    rw [leaveRoom_membersOf] at h1
    by_cases ha : a = r
    · rw [if_pos ha] at h1
      exact absurd ((mem_serase _ _ _).mp h1).2 (not_not.mpr rfl)
    · rw [if_neg ha] at h1
      refine ⟨h1, ?_⟩
      intro hr
      rcases List.mem_cons.mp hr with rfl | hrt
      · exact ha rfl
      · exact h2 hrt

/-! ## Registration and unregistration characterization -/

theorem sendPresenceUpdate_membersOf (s : HubState) (c : Client) (online : Bool)
    (r : String) : membersOf (sendPresenceUpdate s c online) r = membersOf s r := rfl

theorem sendPresenceUpdate_clients (s : HubState) (c : Client) (online : Bool) :
    (sendPresenceUpdate s c online).clients = s.clients := rfl

theorem sendPresenceUpdate_closedChans (s : HubState) (c : Client) (online : Bool) :
    (sendPresenceUpdate s c online).closedChans = s.closedChans := rfl

theorem joinRoom_mem_self (s : HubState) (c : Client) (r : String) :
    c ∈ membersOf (joinRoom s c r) r := by
  rw [joinRoom_membersOf, if_pos rfl]
  exact (mem_sinsert _ _ _).mpr (Or.inl rfl)

theorem joinRoom_mem_mono (s : HubState) (c c' : Client) (r r' : String)
    (h : c' ∈ membersOf s r') : c' ∈ membersOf (joinRoom s c r) r' := by
  by_cases hr : r = r'
  · subst hr
    rw [joinRoom_membersOf, if_pos rfl]
    exact (mem_sinsert _ _ _).mpr (Or.inr h)
  · rw [joinRoom_membersOf, if_neg hr]
    exact h

theorem registerClient_clients (s : HubState) (c : Client) :
    (registerClient s c).clients = minsert s.clients c.id c := by
  unfold registerClient
  dsimp only
  split <;> rfl

theorem registerClient_pending (s : HubState) (c : Client) :
    (registerClient s c).pending = s.pending ++
      [{ type := "presence",
         room := if c.teamID ≠ "" then "team:" ++ c.teamID else "",
         userID := c.userID, data := MsgData.status "online",
         timestamp := s.now }] := by
  unfold registerClient
  dsimp only
  rw [sendPresenceUpdate_state]
  split <;> rfl

theorem unregisterClient_noop (s : HubState) (c : Client)
    (h : mlookup s.clients c.id = Option.none) : unregisterClient s c = s := by
  unfold unregisterClient
  rw [h]

theorem foldl_sendToUser_frame (m : Message) (u : String) (l : List Client) :
    ∀ (s : HubState),
      (l.foldl (fun st c => if c.userID = u then trySend st c m else st) s).clients
        = s.clients
      ∧ (l.foldl (fun st c => if c.userID = u then trySend st c m else st) s).rooms
          = s.rooms
      ∧ (l.foldl (fun st c => if c.userID = u then trySend st c m else st)
            s).clientRooms = s.clientRooms := by
  induction l with
  | nil => exact fun s => ⟨rfl, rfl, rfl⟩
  | cons x t ih =>
    intro s
    simp only [List.foldl_cons]
    obtain ⟨a1, a2, a3⟩ := ih (if x.userID = u then trySend s x m else s)
    by_cases hx : x.userID = u
    · rw [if_pos hx] at a1 a2 a3
      obtain ⟨b1, b2, b3, -⟩ := trySend_frame s x m
      rw [if_pos hx]
      exact ⟨a1.trans b1, a2.trans b2, a3.trans b3⟩
    · rw [if_neg hx] at a1 a2 a3
      rw [if_neg hx]
      exact ⟨a1, a2, a3⟩

/-! ## Claim theorems -/

/-- C1: the room index and the clients' room sets always agree
bidirectionally — for every registered client `c` and every room `r` of
the hub's index, `c ∈ r.members ↔ r ∈ c.rooms` (`roomInvariant`) — and
this agreement, in its inductive form `fullInvariant` (agreement for
every client appearing in either map), is preserved by `registerClient`,
`unregisterClient`, `joinRoom` and `leaveRoom`, each of which also
re-establishes the spec's registered-client invariant. -/
theorem room_membership_bidirectional_agreement (s : HubState) (c : Client)
    (r : String) (h : fullInvariant s) :
    roomInvariant s
    ∧ (fullInvariant (registerClient s c) ∧ roomInvariant (registerClient s c))
    ∧ (fullInvariant (unregisterClient s c) ∧ roomInvariant (unregisterClient s c))
    ∧ (fullInvariant (joinRoom s c r) ∧ roomInvariant (joinRoom s c r))
    ∧ (fullInvariant (leaveRoom s c r) ∧ roomInvariant (leaveRoom s c r)) := by
  have ha := (fullInvariant_iff_agree s).mp h
  have h1 := agree_registerClient s c ha
  have h2 := agree_unregisterClient s c ha
  have h3 := agree_joinRoom s c r ha
  have h4 := agree_leaveRoom s c r ha
  exact ⟨roomInvariant_of_agree s ha,
    ⟨(fullInvariant_iff_agree _).mpr h1, roomInvariant_of_agree _ h1⟩,
    ⟨(fullInvariant_iff_agree _).mpr h2, roomInvariant_of_agree _ h2⟩,
    ⟨(fullInvariant_iff_agree _).mpr h3, roomInvariant_of_agree _ h3⟩,
    ⟨(fullInvariant_iff_agree _).mpr h4, roomInvariant_of_agree _ h4⟩⟩

/-- Witness for C1 at a concrete two-client state. -/
theorem room_membership_bidirectional_agreement_witness :
    fullInvariant sampleState
    ∧ roomInvariant sampleState
    ∧ fullInvariant (unregisterClient sampleState cAlice)
    ∧ fullInvariant (joinRoom sampleState cCarol "team:T2") :=
  ⟨by decide,
   (room_membership_bidirectional_agreement sampleState cAlice "x" (by decide)).1,
   (room_membership_bidirectional_agreement sampleState cAlice "x" (by decide)).2.2.1.1,
   (room_membership_bidirectional_agreement sampleState cCarol "team:T2"
     (by decide)).2.2.2.1.1⟩

/-- C3: immediately after `registerClient(c)`, `c` is in the registry
(under its ID), `c` is a member of room `"global"`, and when `c`'s team
ID is non-empty `c` is also a member of `"team:<teamID>"` and a presence
envelope with status `"online"` carrying `c`'s user ID has been emitted
into that team room (pushed onto the hub's broadcast channel).
Registration is a total function of the state — it never fails. -/
theorem register_joins_registry_global_and_team (s : HubState) (c : Client) :
    mlookup (registerClient s c).clients c.id = some c
    ∧ c ∈ membersOf (registerClient s c) "global"
    ∧ (c.teamID ≠ "" →
        c ∈ membersOf (registerClient s c) ("team:" ++ c.teamID)
        ∧ (registerClient s c).pending = s.pending ++
            [{ type := "presence", room := "team:" ++ c.teamID,
               userID := c.userID, data := MsgData.status "online",
               timestamp := s.now }]) := by
  refine ⟨?_, ?_, fun ht => ⟨?_, ?_⟩⟩
  · rw [registerClient_clients, mlookup_minsert, if_pos rfl]
  · unfold registerClient
    dsimp only
    rw [sendPresenceUpdate_membersOf]
    by_cases ht : c.teamID ≠ ""
    · rw [if_pos ht]
      exact joinRoom_mem_mono _ _ _ _ _ (joinRoom_mem_self _ _ _)
    · rw [if_neg ht]
      exact joinRoom_mem_self _ _ _
  · unfold registerClient
    dsimp only
    rw [sendPresenceUpdate_membersOf, if_pos ht]
    exact joinRoom_mem_self _ _ _
  · rw [registerClient_pending, if_pos ht]

/-- Witness for C3: registering `cAlice` (team `"T1"`) into a fresh hub. -/
theorem register_joins_registry_global_and_team_witness :
    mlookup (registerClient (NewHub 2) cAlice).clients cAlice.id = some cAlice
    ∧ cAlice ∈ membersOf (registerClient (NewHub 2) cAlice) "global"
    ∧ cAlice.teamID ≠ ""
    ∧ cAlice ∈ membersOf (registerClient (NewHub 2) cAlice) ("team:" ++ cAlice.teamID)
    ∧ (registerClient (NewHub 2) cAlice).pending =
        [{ type := "presence", room := "team:" ++ cAlice.teamID,
           userID := cAlice.userID, data := MsgData.status "online",
           timestamp := 0 }] :=
  ⟨(register_joins_registry_global_and_team (NewHub 2) cAlice).1,
   (register_joins_registry_global_and_team (NewHub 2) cAlice).2.1,
   by decide,
   ((register_joins_registry_global_and_team (NewHub 2) cAlice).2.2 (by decide)).1,
   ((register_joins_registry_global_and_team (NewHub 2) cAlice).2.2 (by decide)).2⟩

/-- C4: `unregisterClient(c)` is a no-op when `c`'s ID is not in the
registry (registry, room index, queues, closed channels and pending all
unchanged — the whole state is returned as is, so no presence envelope
is emitted and `c`'s queue is not closed); when it is registered,
`unregisterClient(c)` removes `c` from every room's member set, closes
`c`'s outbound queue, removes the entry for `c`'s ID from the registry,
and emits exactly one presence "offline" envelope — and a second
`unregisterClient(c)` is then a no-op (no panic: the closed channel is
not closed again, and no duplicate "offline" emission occurs, since the
second call returns the state unchanged). -/
theorem unregister_idempotent_full_cleanup (s : HubState) (c : Client) :
    (mlookup s.clients c.id = Option.none → unregisterClient s c = s)
    ∧ (fullInvariant s → (mlookup s.clients c.id).isSome →
        (∀ r, c ∉ membersOf (unregisterClient s c) r)
        ∧ c ∈ (unregisterClient s c).closedChans
        ∧ mlookup (unregisterClient s c).clients c.id = Option.none
        ∧ (unregisterClient s c).pending = s.pending ++
            [{ type := "presence",
               room := if c.teamID ≠ "" then "team:" ++ c.teamID else "",
               userID := c.userID, data := MsgData.status "offline",
               timestamp := s.now }]
        ∧ unregisterClient (unregisterClient s c) c = unregisterClient s c) := by
  refine ⟨unregisterClient_noop s c, fun hinv hsome => ?_⟩
  obtain ⟨c0, hc0⟩ := Option.isSome_iff_exists.mp hsome
  have ha := (fullInvariant_iff_agree s).mp hinv
  have hclients : (unregisterClient s c).clients = merase s.clients c.id := by
    unfold unregisterClient
    rw [hc0]
    dsimp only
    rw [sendPresenceUpdate_clients]
    exact (foldl_leaveRoom_frame c _ _).1
  have hnone : mlookup (unregisterClient s c).clients c.id = Option.none := by
    rw [hclients]
    exact mlookup_merase_self _ _
  refine ⟨?_, ?_, hnone, ?_, unregisterClient_noop _ c hnone⟩
  · intro r hmem
    revert hmem
    unfold unregisterClient
    rw [hc0]
    dsimp only
    rw [sendPresenceUpdate_membersOf]
    intro hmem
    obtain ⟨h1, h2⟩ := foldl_leaveRoom_mem c _ _ r hmem
    exact h2 ((ha r c).mp h1)
  · unfold unregisterClient
    rw [hc0]
    dsimp only
    rw [sendPresenceUpdate_closedChans]
    rw [(foldl_leaveRoom_frame c _ _).2.2.2.1]
    exact (mem_sinsert _ _ _).mpr (Or.inl rfl)
  · unfold unregisterClient
    rw [hc0]
    dsimp only
    rw [sendPresenceUpdate_state]
    obtain ⟨_, _, _, _, hpend, _, hnow⟩ := foldl_leaveRoom_frame c
      (croomsOf { s with clients := merase s.clients c.id,
                         closedChans := sinsert s.closedChans c } c)
      { s with clients := merase s.clients c.id,
               closedChans := sinsert s.closedChans c }
    rw [hpend, hnow]
    rfl

/-- Witness for C4: unregistering the unregistered `cCarol` is a no-op,
while unregistering the registered `cAlice` performs the full cleanup. -/
theorem unregister_idempotent_full_cleanup_witness :
    unregisterClient sampleState cCarol = sampleState
    ∧ cAlice ∉ membersOf (unregisterClient sampleState cAlice) "team:T1"
    ∧ cAlice ∈ (unregisterClient sampleState cAlice).closedChans
    ∧ unregisterClient (unregisterClient sampleState cAlice) cAlice =
        unregisterClient sampleState cAlice :=
  ⟨(unregister_idempotent_full_cleanup sampleState cCarol).1 (by decide),
   ((unregister_idempotent_full_cleanup sampleState cAlice).2 (by decide)
     (by decide)).1 "team:T1",
   ((unregister_idempotent_full_cleanup sampleState cAlice).2 (by decide)
     (by decide)).2.1,
   ((unregister_idempotent_full_cleanup sampleState cAlice).2 (by decide)
     (by decide)).2.2.2.2⟩

/-- C2: `broadcastMessage` with a non-empty room delivers the envelope to
exactly the members of that room at delivery time — a client not in the
member set is never enqueued to, every member is enqueued to at most
once, and every member whose channel is open and not saturated receives
exactly one copy (the §5 backpressure drop for a saturated member is the
only exception, covered by the saturation claim); with an empty room it
delivers likewise to every currently registered client.  The Go member
sets and registry values are duplicate-free, modelled by the `Nodup`
hypotheses. -/
theorem broadcast_delivers_exactly_members (s : HubState) (m : Message) :
    (∀ ms, m.room ≠ "" → mlookup s.rooms m.room = some ms → ms.Nodup →
      (∀ c, c ∉ ms → queueOf (broadcastMessage s m) c = queueOf s c)
      ∧ (∀ c ∈ ms,
          queueOf (broadcastMessage s m) c = queueOf s c
          ∨ queueOf (broadcastMessage s m) c = queueOf s c ++ [m])
      ∧ (∀ c ∈ ms, c ∉ s.closedChans → (queueOf s c).length < s.sendCap →
          queueOf (broadcastMessage s m) c = queueOf s c ++ [m]))
    ∧ (m.room = "" → (s.clients.map Prod.snd).Nodup →
      (∀ c, c ∉ s.clients.map Prod.snd →
          queueOf (broadcastMessage s m) c = queueOf s c)
      ∧ (∀ c ∈ s.clients.map Prod.snd,
          queueOf (broadcastMessage s m) c = queueOf s c
          ∨ queueOf (broadcastMessage s m) c = queueOf s c ++ [m])
      ∧ (∀ c ∈ s.clients.map Prod.snd, c ∉ s.closedChans →
          (queueOf s c).length < s.sendCap →
          queueOf (broadcastMessage s m) c = queueOf s c ++ [m])) := by
  constructor
  · intro ms hr hms hnd
    have hb : broadcastMessage s m = ms.foldl (fun st c => trySend st c m) s := by
      unfold broadcastMessage
      rw [if_pos hr, hms]
    rw [hb]
    refine ⟨?_, ?_, ?_⟩
    · intro c hc
      rw [foldl_trySend_queueOf m ms s c hnd]
      simp [hc]
    · intro c _
      rw [foldl_trySend_queueOf m ms s c hnd]
      split_ifs
      · exact Or.inr rfl
      · exact Or.inl rfl
    · intro c hc hcl hlen
      rw [foldl_trySend_queueOf m ms s c hnd, if_pos ⟨hc, hcl, hlen⟩]
  · intro hr hnd
    have hb : broadcastMessage s m =
        (s.clients.map Prod.snd).foldl (fun st c => trySend st c m) s := by
      unfold broadcastMessage
      rw [hr, if_neg (fun h => h rfl)]
    rw [hb]
    refine ⟨?_, ?_, ?_⟩
    · intro c hc
      rw [foldl_trySend_queueOf m _ s c hnd]
      simp [hc]
    · intro c _
      rw [foldl_trySend_queueOf m _ s c hnd]
      split_ifs
      · exact Or.inr rfl
      · exact Or.inl rfl
    · intro c hc hcl hlen
      rw [foldl_trySend_queueOf m _ s c hnd, if_pos ⟨hc, hcl, hlen⟩]

/-- Witness for C2: a chat to `"team:T1"` reaches `cBob` exactly once
and does not touch `cCarol`'s queue. -/
theorem broadcast_delivers_exactly_members_witness :
    queueOf (broadcastMessage sampleState mChat) cBob =
      queueOf sampleState cBob ++ [mChat]
    ∧ queueOf (broadcastMessage sampleState mChat) cCarol =
        queueOf sampleState cCarol :=
  ⟨((broadcast_delivers_exactly_members sampleState mChat).1 [cAlice, cBob]
      (by decide) (by decide) (by decide)).2.2 cBob (by decide) (by decide)
      (by decide),
   ((broadcast_delivers_exactly_members sampleState mChat).1 [cAlice, cBob]
      (by decide) (by decide) (by decide)).1 cCarol (by decide)⟩

/-- C7: when one recipient's bounded `Send` queue is already full, the
enqueue for that recipient alone is dropped — a warning entry is logged
and the recipient's queue is unchanged — while every other open,
unsaturated member of the room still receives the message.  The
operation is a total function (no blocking, no error surfaced to the
sender). -/
theorem broadcast_drops_only_saturated (s : HubState) (m : Message)
    (ms : List Client) (a : Client) (hr : m.room ≠ "")
    (hms : mlookup s.rooms m.room = some ms) (hnd : ms.Nodup) (ha : a ∈ ms)
    (hfull : s.sendCap ≤ (queueOf s a).length) :
    queueOf (broadcastMessage s m) a = queueOf s a
    ∧ (a, m) ∈ (broadcastMessage s m).droppedLog
    ∧ ∀ c ∈ ms, c ≠ a → c ∉ s.closedChans → (queueOf s c).length < s.sendCap →
        queueOf (broadcastMessage s m) c = queueOf s c ++ [m] := by
  have hb : broadcastMessage s m = ms.foldl (fun st c => trySend st c m) s := by
    unfold broadcastMessage
    rw [if_pos hr, hms]
  rw [hb]
  refine ⟨?_, ?_, ?_⟩
  · rw [foldl_trySend_queueOf m ms s a hnd, if_neg]
    rintro ⟨-, -, hlt⟩
    exact absurd hlt (Nat.not_lt.mpr hfull)
  · exact foldl_trySend_dropped m ms s a ha (Or.inr hfull)
  · intro c hc _ hcl hlen
    rw [foldl_trySend_queueOf m ms s c hnd, if_pos ⟨hc, hcl, hlen⟩]

/-- Witness for C7: with `cAlice`'s queue saturated (2 of 2), a broadcast
to `"team:T1"` drops only `cAlice`'s copy and still reaches `cBob`. -/
theorem broadcast_drops_only_saturated_witness :
    queueOf (broadcastMessage fullQueueState mChat) cAlice =
      queueOf fullQueueState cAlice
    ∧ (cAlice, mChat) ∈ (broadcastMessage fullQueueState mChat).droppedLog
    ∧ queueOf (broadcastMessage fullQueueState mChat) cBob =
        queueOf fullQueueState cBob ++ [mChat] :=
  ⟨(broadcast_drops_only_saturated fullQueueState mChat [cAlice, cBob] cAlice
      (by decide) (by decide) (by decide) (by decide) (by decide)).1,
   (broadcast_drops_only_saturated fullQueueState mChat [cAlice, cBob] cAlice
      (by decide) (by decide) (by decide) (by decide) (by decide)).2.1,
   (broadcast_drops_only_saturated fullQueueState mChat [cAlice, cBob] cAlice
      (by decide) (by decide) (by decide) (by decide) (by decide)).2.2 cBob
      (by decide) (by decide) (by decide) (by decide)⟩

/-- C10: `broadcastMessage` and `SendToUser` never modify the client
registry, the room index or any client's room set; broadcasting to a
room name absent from the index delivers to nobody and creates nothing —
it returns the state unchanged. -/
theorem broadcast_sendToUser_frame (s : HubState) (m : Message) (u : String) :
    (broadcastMessage s m).clients = s.clients
    ∧ (broadcastMessage s m).rooms = s.rooms
    ∧ (broadcastMessage s m).clientRooms = s.clientRooms
    ∧ (SendToUser s u m).clients = s.clients
    ∧ (SendToUser s u m).rooms = s.rooms
    ∧ (SendToUser s u m).clientRooms = s.clientRooms
    ∧ (m.room ≠ "" → mlookup s.rooms m.room = Option.none →
        broadcastMessage s m = s) := by
  have hbc : (broadcastMessage s m).clients = s.clients
      ∧ (broadcastMessage s m).rooms = s.rooms
      ∧ (broadcastMessage s m).clientRooms = s.clientRooms := by
    unfold broadcastMessage
    by_cases hr : m.room ≠ ""
    · rw [if_pos hr]
      cases hms : mlookup s.rooms m.room with
      | none => exact ⟨rfl, rfl, rfl⟩
      | some ms =>
        obtain ⟨a1, a2, a3, -⟩ := foldl_trySend_frame m ms s
        exact ⟨a1, a2, a3⟩
    · rw [if_neg hr]
      obtain ⟨a1, a2, a3, -⟩ := foldl_trySend_frame m (s.clients.map Prod.snd) s
      exact ⟨a1, a2, a3⟩
  have hsu : (SendToUser s u m).clients = s.clients
      ∧ (SendToUser s u m).rooms = s.rooms
      ∧ (SendToUser s u m).clientRooms = s.clientRooms := by
    unfold SendToUser
    exact foldl_sendToUser_frame m u (s.clients.map Prod.snd) s
  refine ⟨hbc.1, hbc.2.1, hbc.2.2, hsu.1, hsu.2.1, hsu.2.2, fun hr hms => ?_⟩
  unfold broadcastMessage
  rw [if_pos hr, hms]

/-- Witness for C10: broadcasting to the unknown room `"channel:9"`
leaves the sample state untouched. -/
theorem broadcast_sendToUser_frame_witness :
    broadcastMessage sampleState mTask = sampleState
    ∧ (SendToUser sampleState "alice" mChat).rooms = sampleState.rooms :=
  ⟨(broadcast_sendToUser_frame sampleState mTask "alice").2.2.2.2.2.2
      (by decide) (by decide),
   (broadcast_sendToUser_frame sampleState mChat "alice").2.2.2.2.1⟩

/-- Counterexample to C5: a `task_update` envelope in which the client
specified room `"channel:9"` is NOT forwarded with its room preserved —
`handleTaskUpdate` (like `handleTypingIndicator`) overwrites the room
with `"team:<teamID>"` unconditionally; only `handleChatMessage` keeps a
client-specified room. -/
theorem dispatch_preserves_room_counterexample :
    (handleMessage (NewHub 2) cAlice mTask).pending ≠
      (NewHub 2).pending ++ [mTask]
    ∧ (handleMessage (NewHub 2) cAlice mTask).pending =
        (NewHub 2).pending ++ [{ mTask with room := "team:T1" }] := by
  constructor
  · decide
  · decide

/-- C5 (amended): an accepted `chat` envelope keeps a client-specified
room and defaults an empty room to `"team:<teamID>"`; `task_update` and
`typing` envelopes always have their room overwritten with
`"team:<teamID>"`; all three are forwarded to the hub's broadcast
channel; an envelope of any other type is discarded without being
forwarded (the state is returned unchanged). -/
theorem dispatch_room_defaulting (s : HubState) (c : Client) (m : Message) :
    (m.type = "chat" →
      handleMessage s c m = { s with pending := s.pending ++
        [if m.room = "" then { m with room := "team:" ++ c.teamID } else m] })
    ∧ (m.type = "task_update" ∨ m.type = "typing" →
      handleMessage s c m = { s with pending := s.pending ++
        [{ m with room := "team:" ++ c.teamID }] })
    ∧ (m.type ≠ "chat" → m.type ≠ "task_update" → m.type ≠ "typing" →
      handleMessage s c m = s) := by
  refine ⟨fun h => ?_, fun h => ?_, fun h1 h2 h3 => ?_⟩
  · unfold handleMessage handleChatMessage
    rw [if_pos h]
  · unfold handleMessage handleTaskUpdate handleTypingIndicator
    rcases h with h | h
    · have hc : m.type ≠ "chat" := by
        rw [h]; decide
      rw [if_neg hc, if_pos h]
    · have hc : m.type ≠ "chat" := by
        rw [h]; decide
      have ht : m.type ≠ "task_update" := by
        rw [h]; decide
      rw [if_neg hc, if_neg ht, if_pos h]
  · unfold handleMessage
    rw [if_neg h1, if_neg h2, if_neg h3]

/-- Witness for C5 (amended): the concrete `task_update` dispatch and a
chat with an empty room from `cAlice`. -/
theorem dispatch_room_defaulting_witness :
    handleMessage (NewHub 2) cAlice mTask =
      { NewHub 2 with pending := (NewHub 2).pending ++
          [{ mTask with room := "team:" ++ cAlice.teamID }] }
    ∧ handleMessage (NewHub 2) cAlice mSpoof =
        { NewHub 2 with pending := (NewHub 2).pending ++
            [if mSpoof.room = "" then { mSpoof with room := "team:" ++ cAlice.teamID }
             else mSpoof] } :=
  ⟨(dispatch_room_defaulting (NewHub 2) cAlice mTask).2.1 (Or.inl (by decide)),
   (dispatch_room_defaulting (NewHub 2) cAlice mSpoof).1 (by decide)⟩

/-- C8: the read pump overwrites the inbound envelope's `user_id` with
the connection's authenticated user ID and its `timestamp` with the
current server time before dispatch, so the dispatched envelope is
independent of any client-supplied value of those fields: two frames
differing only in `user_id`/`timestamp` produce identical post-dispatch
states, and every envelope the step adds to the broadcast channel
carries the connection's user ID and the server time. -/
theorem readpump_overwrites_identity (s : HubState) (c : Client)
    (frame : Message) (u1 u2 : String) (t1 t2 : Nat) :
    readPumpStep s c { frame with userID := u1, timestamp := t1 }
      = readPumpStep s c { frame with userID := u2, timestamp := t2 }
    ∧ readPumpStep s c { frame with userID := u1, timestamp := t1 }
        = readPumpStep s c frame
    ∧ ∀ m' ∈ (readPumpStep s c frame).pending,
        m' ∈ s.pending ∨ (m'.userID = c.userID ∧ m'.timestamp = s.now) := by
  refine ⟨rfl, rfl, fun m' hm' => ?_⟩
  revert hm'
  unfold readPumpStep handleMessage handleChatMessage handleTaskUpdate
    handleTypingIndicator
  split_ifs with h1 h2 h3 h4 <;> intro hm'
  · rcases List.mem_append.mp hm' with h | h
    · exact Or.inl h
    · rw [List.mem_singleton.mp h]
      exact Or.inr ⟨rfl, rfl⟩
  · rcases List.mem_append.mp hm' with h | h
    · exact Or.inl h
    · rw [List.mem_singleton.mp h]
      exact Or.inr ⟨rfl, rfl⟩
  · rcases List.mem_append.mp hm' with h | h
    · exact Or.inl h
    · rw [List.mem_singleton.mp h]
      exact Or.inr ⟨rfl, rfl⟩
  · rcases List.mem_append.mp hm' with h | h
    · exact Or.inl h
    · rw [List.mem_singleton.mp h]
      exact Or.inr ⟨rfl, rfl⟩
  · exact Or.inl hm'

/-- Witness for C8: two spoofed variants of the same frame dispatch
identically, and the dispatched chat envelope carries `cAlice`'s user ID
and the server time, not the client-supplied values. -/
theorem readpump_overwrites_identity_witness :
    readPumpStep (NewHub 2) cAlice { mSpoof with userID := "spoof1", timestamp := 1 }
      = readPumpStep (NewHub 2) cAlice { mSpoof with userID := "spoof2", timestamp := 2 }
    ∧ (({ mSpoof with room := "team:T1", userID := "alice", timestamp := 0 }
          : Message) ∈ (NewHub 2).pending
        ∨ (({ mSpoof with room := "team:T1", userID := "alice", timestamp := 0 }
              : Message).userID = cAlice.userID
           ∧ ({ mSpoof with room := "team:T1", userID := "alice", timestamp := 0 }
                : Message).timestamp = (NewHub 2).now)) :=
  ⟨(readpump_overwrites_identity (NewHub 2) cAlice mSpoof "spoof1" "spoof2" 1 2).1,
   (readpump_overwrites_identity (NewHub 2) cAlice mSpoof "x" "y" 0 0).2.2
     { mSpoof with room := "team:T1", userID := "alice", timestamp := 0 }
     (by decide)⟩

/-- C9: for a client whose team ID is the empty string, an inbound chat
envelope with an empty room field is forwarded to the broadcast channel
with room equal to the literal `"team:"` (`"team:" + ""`), and
`task_update`/`typing` envelopes from such a client are likewise routed
to room `"team:"` — the room is the same for every teamless client and
is non-empty, so the envelope is neither dropped nor broadcast
globally. -/
theorem teamless_clients_share_team_room (s : HubState) (c : Client)
    (m : Message) (hteam : c.teamID = "") :
    (m.type = "chat" → m.room = "" →
      (handleMessage s c m).pending = s.pending ++ [{ m with room := "team:" }])
    ∧ ((m.type = "task_update" ∨ m.type = "typing") →
      (handleMessage s c m).pending = s.pending ++ [{ m with room := "team:" }])
    ∧ ("team:" : String) ≠ "" := by
  have happ : "team:" ++ c.teamID = "team:" := by
    rw [hteam]
    decide
  refine ⟨fun h1 h2 => ?_, fun h => ?_, by decide⟩
  · unfold handleMessage handleChatMessage
    rw [if_pos h1, if_pos h2, happ]
  · unfold handleMessage handleTaskUpdate handleTypingIndicator
    rcases h with h | h
    · have hc : m.type ≠ "chat" := by
        rw [h]; decide
      rw [if_neg hc, if_pos h, happ]
    · have hc : m.type ≠ "chat" := by
        rw [h]; decide
      have ht : m.type ≠ "task_update" := by
        rw [h]; decide
      rw [if_neg hc, if_neg ht, if_pos h, happ]

/-- Witness for C9: a chat with empty room from the teamless `cAnon` is
forwarded to the literal room `"team:"`. -/
theorem teamless_clients_share_team_room_witness :
    (handleMessage (NewHub 2) cAnon mSpoof).pending =
      (NewHub 2).pending ++ [{ mSpoof with room := "team:" }]
    ∧ (handleMessage (NewHub 2) cAnon { mTask with room := "r" }).pending =
        (NewHub 2).pending ++ [{ mTask with room := "team:" }] :=
  ⟨(teamless_clients_share_team_room (NewHub 2) cAnon mSpoof (by decide)).1
      (by decide) (by decide),
   (teamless_clients_share_team_room (NewHub 2) cAnon { mTask with room := "r" }
      (by decide)).2.1 (Or.inl (by decide))⟩

/-- Counterexample to C6: the presence envelope synthesized for the
teamless `cAnon` has an empty room, and `broadcastMessage` treats an
empty room as "deliver to every registered client" — so it reaches
`cAlice` (whose queue gains the envelope) instead of reaching nobody. -/
theorem presence_teamless_counterexample :
    (sendPresenceUpdate anonState cAnon true).pending =
      anonState.pending ++ [mPresAnon]
    ∧ queueOf (broadcastMessage anonState mPresAnon) cAlice = [mPresAnon]
    ∧ queueOf anonState cAlice = [] := by
  exact ⟨by decide, by decide, by decide⟩

/-- C6 (amended): the presence envelope synthesized at
register/unregister time carries the user's ID and status `"online"` or
`"offline"`; for a client with a non-empty team ID it is targeted
exactly at room `"team:<teamID>"`; for a client with an empty team ID
its room is left unset (`""`), so processing it broadcasts it to every
currently registered client (subject to per-client backpressure) rather
than to nobody. -/
theorem presence_envelope_targeting (s : HubState) (c : Client) (online : Bool) :
    sendPresenceUpdate s c online = { s with pending := s.pending ++
      [{ type := "presence",
         room := if c.teamID ≠ "" then "team:" ++ c.teamID else "",
         userID := c.userID,
         data := MsgData.status (if online then "online" else "offline"),
         timestamp := s.now }] }
    ∧ (MsgData.status (if online then "online" else "offline")
          = MsgData.status "online"
        ∨ MsgData.status (if online then "online" else "offline")
            = MsgData.status "offline")
    ∧ (c.teamID ≠ "" →
        (if c.teamID ≠ "" then "team:" ++ c.teamID else "") = "team:" ++ c.teamID)
    ∧ (c.teamID = "" →
        (if c.teamID ≠ "" then "team:" ++ c.teamID else "") = ""
        ∧ ((s.clients.map Prod.snd).Nodup →
            ∀ d ∈ s.clients.map Prod.snd, d ∉ s.closedChans →
              (queueOf s d).length < s.sendCap →
              queueOf (broadcastMessage s
                { type := "presence", room := "", userID := c.userID,
                  data := MsgData.status (if online then "online" else "offline"),
                  timestamp := s.now }) d =
                queueOf s d ++
                  [{ type := "presence", room := "", userID := c.userID,
                     data := MsgData.status (if online then "online" else "offline"),
                     timestamp := s.now }])) := by
  refine ⟨sendPresenceUpdate_state s c online, ?_, fun ht => if_pos ht,
    fun ht => ⟨?_, fun hnd d hd hcl hlen => ?_⟩⟩
  · cases online
    · exact Or.inr rfl
    · exact Or.inl rfl
  · rw [if_neg (fun h => h ht)]
  · have hb : broadcastMessage s
        { type := "presence", room := "", userID := c.userID,
          data := MsgData.status (if online then "online" else "offline"),
          timestamp := s.now } =
        (s.clients.map Prod.snd).foldl (fun st x => trySend st x
          { type := "presence", room := "", userID := c.userID,
            data := MsgData.status (if online then "online" else "offline"),
            timestamp := s.now }) s := by
      unfold broadcastMessage
      rw [if_neg (fun h => h rfl)]
    rw [hb, foldl_trySend_queueOf _ _ s d hnd, if_pos ⟨hd, hcl, hlen⟩]

/-- Witness for C6 (amended): `cBob`'s presence envelope targets
`"team:T1"`; the teamless `cAnon`'s presence envelope has an empty room
and is delivered to the registered `cAlice`. -/
theorem presence_envelope_targeting_witness :
    (if cBob.teamID ≠ "" then "team:" ++ cBob.teamID else "") =
      "team:" ++ cBob.teamID
    ∧ (if cAnon.teamID ≠ "" then "team:" ++ cAnon.teamID else "") = ""
    ∧ queueOf (broadcastMessage anonState
        { type := "presence", room := "", userID := cAnon.userID,
          data := MsgData.status (if true then "online" else "offline"),
          timestamp := anonState.now }) cAlice =
        queueOf anonState cAlice ++
          [{ type := "presence", room := "", userID := cAnon.userID,
             data := MsgData.status (if true then "online" else "offline"),
             timestamp := anonState.now }] :=
  ⟨(presence_envelope_targeting sampleState cBob true).2.2.1 (by decide),
   ((presence_envelope_targeting anonState cAnon true).2.2.2 (by decide)).1,
   ((presence_envelope_targeting anonState cAnon true).2.2.2 (by decide)).2
     (by decide) cAlice (by decide) (by decide) (by decide)⟩

end WsHub
